import Mathlib

/-!
Verification of the real-time voice-session core of the Muha AI client
(`src/App.tsx`): the byte/text transport codec (`encode`/`decode`,
lines 37-48), inbound chunk decoding (`decodeAudioData`, lines 50-61),
the outbound PCM16 frame encoder (`scriptProcessor.onaudioprocess`,
lines 258-268), the inbound playback scheduler with barge-in handling
(`onmessage`, lines 285-306), and the session lifecycle
(`stopVoiceMode` lines 191-211, `startVoiceMode` lines 213-226).

Bytes are modelled as natural numbers below 256, audio samples as exact
rationals, and the component's mutable refs and UI flags as an explicit
record threaded through the handlers.
-/

namespace MuhaVoice

/-! ### Byte/text transport encoding (`encode` / `decode`, App.tsx 37-48)

`encode` builds a latin-1 string from the bytes and applies `btoa`;
`decode` applies `atob` and reads the char codes back.  `btoa`/`atob`
are modelled by their standard base64 behaviour on such strings. -/

def b64Table : List Char :=
  "ABCDEFGHIJKLMNOPQRSTUVWXYZabcdefghijklmnopqrstuvwxyz0123456789+/".toList

/-- Base64 character of a 6-bit group. -/
def b64c (n : Nat) : Char := b64Table.getD n '?'

/-- Inverse table lookup (64 for characters outside the alphabet). -/
def b64idx (c : Char) : Nat := b64Table.indexOf c

/-- Base64 text of a byte list, as `btoa` produces on a latin-1 string. -/
def btoa : List Nat → List Char
  | [] => []
  | [b0] => [b64c (b0 / 4), b64c (b0 % 4 * 16), '=', '=']
  | [b0, b1] => [b64c (b0 / 4), b64c (b0 % 4 * 16 + b1 / 16), b64c (b1 % 16 * 4), '=']
  | b0 :: b1 :: b2 :: rest =>
      b64c (b0 / 4) :: b64c (b0 % 4 * 16 + b1 / 16) ::
        b64c (b1 % 16 * 4 + b2 / 64) :: b64c (b2 % 64) :: btoa rest

/-- Drop the trailing `=` padding of a base64 text. -/
def stripEq (s : List Char) : List Char :=
  (s.reverse.dropWhile (fun c => c == '=')).reverse

/-- Regroup 6-bit values into bytes, as `atob` does after removing padding:
four sextets give three bytes, three give two, two give one. -/
def unsextets : List Nat → List Nat
  | a :: b :: c :: d :: rest =>
      (a * 4 + b / 16) :: (b % 16 * 16 + c / 4) :: (c % 4 * 64 + d) :: unsextets rest
  | [a, b, c] => [a * 4 + b / 16, b % 16 * 16 + c / 4]
  | [a, b] => [a * 4 + b / 16]
  | _ => []

/-- Byte list recovered by `atob` from a base64 text. -/
def atob (s : List Char) : List Nat := unsextets ((stripEq s).map b64idx)

/-! ### Outbound PCM16 frame encoding (`onaudioprocess`, App.tsx 258-268) -/

/-- JavaScript number-to-integer conversion (truncation toward zero), on
exact rationals. -/
def jsTrunc (q : ℚ) : ℤ := if q < 0 then ⌈q⌉ else ⌊q⌋

/-- Wrap an integer into the signed 16-bit range, as storing into an
`Int16Array` element does. -/
def toInt16 (i : ℤ) : ℤ := (i + 32768) % 65536 - 32768

/-- `Math.max(-1, Math.min(1, x))`. -/
def clamp (x : ℚ) : ℚ := max (-1) (min 1 x)

/-- Scaled and truncated sample value before the 16-bit store:
`s < 0 ? s * 32768 : s * 32767`, truncated by the typed-array assignment. -/
def scaledSample (x : ℚ) : ℤ :=
  if clamp x < 0 then jsTrunc (clamp x * 32768) else jsTrunc (clamp x * 32767)

/-- One sample as stored into the outbound `Int16Array`. -/
def encodeSample (x : ℚ) : ℤ := toInt16 (scaledSample x)

/-- Little-endian byte pair of one stored 16-bit sample (the
`Uint8Array` view over the `Int16Array` buffer). -/
def int16ToBytesLE (v : ℤ) : List Nat :=
  [((v % 65536).toNat) % 256, ((v % 65536).toNat) / 256]

/-- Raw bytes of one captured frame after clamping, scaling and the
16-bit store. -/
def encodeFrame (samples : List ℚ) : List Nat :=
  (samples.map encodeSample).flatMap int16ToBytesLE

/-- Outbound chunk as handed to `sendRealtimeInput`. -/
structure OutChunk where
  data : List Char
  mimeType : String
deriving DecidableEq

/-- `scriptProcessor.onaudioprocess`: a frame observed with the mute flag
set is dropped before any encoding or send; otherwise the frame is
PCM16-encoded, base64-encoded and submitted. -/
def onaudioprocess (muted : Bool) (input : List ℚ) : Option OutChunk :=
  if muted then none
  else some ⟨btoa (encodeFrame input), "audio/pcm;rate=16000"⟩

/-- Chunks submitted for a sequence of captured frames, each tagged with
the mute flag observed when its callback ran. -/
def runCapture (frames : List (Bool × List ℚ)) : List OutChunk :=
  frames.filterMap (fun f => onaudioprocess f.1 f.2)

/-! ### Inbound chunk decoding (`decodeAudioData`, App.tsx 50-61) -/

inductive JsErr where
  /-- thrown by `new Int16Array(buffer)` on a buffer of odd byte length -/
  | rangeError
  /-- thrown by `ctx.createBuffer` argument validation -/
  | notSupportedError
  /-- the error type named by the specification; nothing in the code
  declares or throws it -/
  | malformedAudioError
deriving DecidableEq

/-- Signed 16-bit value of a little-endian byte pair. -/
def leToInt16 (lo hi : Nat) : ℤ := toInt16 (lo + 256 * hi)

/-- The `Int16Array` view over a byte buffer (little-endian platform);
a trailing odd byte is not part of any element. -/
def bytesToInt16LE : List Nat → List ℤ
  | lo :: hi :: rest => leToInt16 lo hi :: bytesToInt16LE rest
  | _ => []

structure AudioBuffer where
  numChannels : Nat
  length : Nat
  sampleRate : Nat
  channelData : List (List ℚ)
deriving DecidableEq

/-- `AudioBuffer.duration` = frame count over sample rate. -/
def AudioBuffer.duration (b : AudioBuffer) : ℚ := (b.length : ℚ) / (b.sampleRate : ℚ)

/-- `decodeAudioData`: reinterpret the bytes as an `Int16Array` (the view
constructor throws a range error when the byte length is odd), compute
`frameCount = dataInt16.length / numChannels` (the possibly fractional JS
value is truncated by `createBuffer`'s unsigned-long coercion, hence `Nat`
division), create the buffer (`createBuffer` rejects a channel count of
zero or above 32, a zero length, and a sample rate outside [8000, 96000]),
and fill channel `ch` at frame `i` with
`dataInt16[i * numChannels + ch] / 32768.0`; for a fractional `frameCount`
the loop's writes past the buffer end are discarded by the typed array. -/
def decodeAudioData (data : List Nat) (sampleRate numChannels : Nat) :
    Except JsErr AudioBuffer :=
  if data.length % 2 ≠ 0 then .error .rangeError
  else
    let dataInt16 := bytesToInt16LE data
    let frameCount := dataInt16.length / numChannels
    if numChannels = 0 ∨ 32 < numChannels ∨ frameCount = 0 ∨
        sampleRate < 8000 ∨ 96000 < sampleRate then .error .notSupportedError
    else .ok
      { numChannels := numChannels
        length := frameCount
        sampleRate := sampleRate
        channelData := (List.range numChannels).map (fun ch =>
          (List.range frameCount).map (fun i =>
            ((dataInt16.getD (i * numChannels + ch) 0 : ℤ) : ℚ) / 32768)) }

/-! ### Session state: the component's mutable refs and UI flags

`liveSession`, `stream`, `ctxIn`, `ctxOut` and `frameInterval` model
`liveSessionRef`, `streamRef`, `liveAudioCtxInRef`, `liveAudioCtxOutRef`
and `frameIntervalRef` (resources named by an id).  `nextStartTime` and
`sources` model `liveNextStartTimeRef` and `liveSourcesRef`.  The
`closed…`/`cancelled…`/`stopped…` lists record which release calls have
been made on the surrounding environment, so that teardown behaviour is
observable. -/

structure Source where
  start : ℚ
  duration : ℚ
deriving DecidableEq

structure AppState where
  liveSession : Option Nat
  stream : Option Nat
  ctxIn : Option Nat
  ctxOut : Option Nat
  frameInterval : Option Nat
  nextStartTime : ℚ
  sources : List Source
  micMuted : Bool
  cameraActive : Bool
  transcription : String
  voiceModeActive : Bool
  dropdownOpen : Bool
  closedSessions : List Nat
  cancelledIntervals : List Nat
  stoppedStreams : List Nat
  closedCtxs : List Nat
deriving DecidableEq

def initialState : AppState :=
  { liveSession := none, stream := none, ctxIn := none, ctxOut := none
    frameInterval := none, nextStartTime := 0, sources := []
    micMuted := false, cameraActive := false, transcription := ""
    voiceModeActive := false, dropdownOpen := false
    closedSessions := [], cancelledIntervals := [], stoppedStreams := []
    closedCtxs := [] }

/-! ### Inbound message handler (`onmessage`, App.tsx 285-306) -/

structure ServerMsg where
  /-- transport audio payload, already base64-decoded to bytes -/
  audioBytes : Option (List Nat)
  interrupted : Bool
  inputTranscription : Option String
  outputTranscription : Option String

structure MsgResult where
  state : AppState
  /-- handles `stop()` was invoked on -/
  stopped : List Source
  /-- stop attempts whose error was caught and swallowed -/
  failedStops : List Source
  /-- the async handler rejected mid-way (audio decode failure) -/
  aborted : Bool

/-- The `onmessage` callback.  When an audio payload is present and the
output context ref is live, the cursor is first bumped to
`max(cursor, ctx.currentTime)`; a decode failure then rejects the async
handler, so the interruption and transcription statements never run (the
cursor bump persists).  On success the chunk is scheduled at the cursor,
the cursor advances by the buffer duration and the handle joins the live
set.  On `interrupted`, every live handle is stopped inside a per-handle
try/catch (`stopFails` says which attempts error; they are swallowed),
the set is cleared and the cursor reset to 0.  Finally the transcript
snapshot is updated, input transcription taking precedence. -/
def onmessage (stopFails : Source → Bool) (now : ℚ) (msg : ServerMsg)
    (st : AppState) : MsgResult :=
  let audio : AppState × Bool :=
    match msg.audioBytes, st.ctxOut with
    | some bytes, some _ =>
        let st1 : AppState := { st with nextStartTime := max st.nextStartTime now }
        match decodeAudioData bytes 24000 1 with
        | .error _ => (st1, true)
        | .ok buf =>
            ({ st1 with
                sources := st1.sources ++ [⟨st1.nextStartTime, buf.duration⟩]
                nextStartTime := st1.nextStartTime + buf.duration }, false)
    | _, _ => (st, false)
  if audio.2 then ⟨audio.1, [], [], true⟩
  else
    let st1 := audio.1
    let interrupt : AppState × List Source :=
      if msg.interrupted then
        ({ st1 with sources := [], nextStartTime := 0 }, st1.sources)
      else (st1, [])
    let st2 := interrupt.1
    let st3 : AppState :=
      match msg.inputTranscription with
      | some t => { st2 with transcription := t }
      | none =>
        match msg.outputTranscription with
        | some t => { st2 with transcription := t }
        | none => st2
    ⟨st3, interrupt.2, interrupt.2.filter stopFails, false⟩

/-- Fold a sequence of timed inbound messages through the handler. -/
def runMsgs (stopFails : Source → Bool) (msgs : List (ℚ × ServerMsg))
    (st : AppState) : AppState :=
  msgs.foldl (fun s m => (onmessage stopFails m.1 m.2 s).state) st

/-- Gapless forward scheduling: each handle starts no earlier than the
previous handle's end. -/
def WellScheduled (l : List Source) : Prop :=
  List.Chain' (fun a b => a.start + a.duration ≤ b.start) l

/-- The cursor dominates every scheduled handle's end, and scheduled
durations are non-negative. -/
def CursorDominates (st : AppState) : Prop :=
  ∀ s ∈ st.sources, s.start + s.duration ≤ st.nextStartTime ∧ 0 ≤ s.duration

/-! ### Force-stop (`stopVoiceMode`, App.tsx 191-211)

The source wraps the whole teardown in a single try/catch whose handler
only logs, so the call never raises; but a step that throws (transport
close, audio-context close) abandons every later step.  Only the
per-handle `s.stop()` calls have their own inner try/catch.
`TeardownFaults` says which fallible calls throw on this run; `Step`
records, in order, the calls actually made. -/

structure TeardownFaults where
  sessionCloseThrows : Bool
  ctxInCloseThrows : Bool
  ctxOutCloseThrows : Bool
  sourceStopFails : Source → Bool

inductive Step where
  | closeSession (id : Nat)
  | cancelInterval (id : Nat)
  | stopSource (s : Source)
  | sourceStopFailed (s : Source)
  | clearSources
  | stopTracks (id : Nat)
  | closeCtxIn (id : Nat)
  | closeCtxOut (id : Nat)
  | resetState
deriving DecidableEq

/-- Final statements of `stopVoiceMode` (lines 201-209): null out the
resource refs and reset the UI state.  The frame-interval ref itself is
left as-is by the source. -/
def stopFinalize (st : AppState) (tr : List Step) : AppState × List Step :=
  ({ st with liveSession := none, stream := none, ctxIn := none, ctxOut := none
             voiceModeActive := false, micMuted := false, cameraActive := false
             transcription := "", dropdownOpen := false }, tr ++ [.resetState])

def stopCloseCtxOut (o : TeardownFaults) (st : AppState) (tr : List Step) :
    AppState × List Step :=
  match st.ctxOut with
  | some cid =>
      if o.ctxOutCloseThrows then (st, tr ++ [.closeCtxOut cid])
      else stopFinalize { st with closedCtxs := cid :: st.closedCtxs }
        (tr ++ [.closeCtxOut cid])
  | none => stopFinalize st tr

def stopCloseCtxIn (o : TeardownFaults) (st : AppState) (tr : List Step) :
    AppState × List Step :=
  match st.ctxIn with
  | some cid =>
      if o.ctxInCloseThrows then (st, tr ++ [.closeCtxIn cid])
      else stopCloseCtxOut o { st with closedCtxs := cid :: st.closedCtxs }
        (tr ++ [.closeCtxIn cid])
  | none => stopCloseCtxOut o st tr

/-- `streamRef.current.getTracks().forEach(t => t.stop())`; a media track's
stop does not throw. -/
def stopTracksStep (o : TeardownFaults) (st : AppState) (tr : List Step) :
    AppState × List Step :=
  match st.stream with
  | some sid => stopCloseCtxIn o { st with stoppedStreams := sid :: st.stoppedStreams }
      (tr ++ [.stopTracks sid])
  | none => stopCloseCtxIn o st tr

/-- `liveSourcesRef.current.forEach(s => ...)` with a per-handle try/catch,
followed by `clear()`: every stop is attempted, an individual failure is
swallowed, and the iteration and the clear still run. -/
def stopSourcesStep (o : TeardownFaults) (st : AppState) (tr : List Step) :
    AppState × List Step :=
  stopTracksStep o { st with sources := [] }
    (tr ++ st.sources.flatMap (fun s =>
        Step.stopSource s ::
          (if o.sourceStopFails s then [Step.sourceStopFailed s] else []))
      ++ [.clearSources])

/-- `clearInterval` does not throw. -/
def stopIntervalStep (o : TeardownFaults) (st : AppState) (tr : List Step) :
    AppState × List Step :=
  match st.frameInterval with
  | some i => stopSourcesStep o { st with cancelledIntervals := i :: st.cancelledIntervals }
      (tr ++ [.cancelInterval i])
  | none => stopSourcesStep o st tr

/-- `stopVoiceMode`: close the transport session, cancel the frame-sampler
interval, stop and clear the live handles, stop the capture tracks, close
both audio contexts, then null the refs and reset the flags — all inside
one enclosing try/catch, so a throwing step ends the whole teardown early
(with the state as mutated so far) and nothing propagates to the caller. -/
def stopVoiceMode (o : TeardownFaults) (st : AppState) : AppState × List Step :=
  match st.liveSession with
  | some sid =>
      if o.sessionCloseThrows then (st, [Step.closeSession sid])
      else stopIntervalStep o { st with closedSessions := sid :: st.closedSessions }
        [Step.closeSession sid]
  | none => stopIntervalStep o st []

/-- No fallible teardown call of this run throws. -/
def NoThrows (o : TeardownFaults) : Prop :=
  o.sessionCloseThrows = false ∧ o.ctxInCloseThrows = false ∧
    o.ctxOutCloseThrows = false

/-! ### Session start (`startVoiceMode`, App.tsx 213-226, success path) -/

structure StartResources where
  ctxInId : Nat
  ctxOutId : Nat
  streamId : Nat
  sessionId : Nat

/-- `startVoiceMode` up to the connect call: it bails out when no chat
session is active; otherwise it sets the active flag and overwrites the
audio-context, capture-stream and transport-session refs with freshly
acquired resources.  The source contains no call to `stopVoiceMode` here
and no guard against an already-active voice session, so nothing closes
or stops whatever the refs held before. -/
def startVoiceMode (hasChat : Bool) (r : StartResources) (st : AppState) : AppState :=
  if hasChat then
    { st with voiceModeActive := true
              ctxIn := some r.ctxInId
              ctxOut := some r.ctxOutId
              stream := some r.streamId
              liveSession := some r.sessionId }
  else st

/-! ### Definitions modelled from the specification's words, for
comparison with the code's behaviour. -/

/-- Modelled from the spec (§4.1): round-half-away-from-zero. -/
def roundHalfAway (q : ℚ) : ℤ := if q < 0 then -⌊-q + 1/2⌋ else ⌊q + 1/2⌋

/-- Modelled from the spec (§4.1): the encoder's sample map as the spec
states it, with round-half-away-from-zero in place of truncation. -/
def specEncodeSample (x : ℚ) : ℤ :=
  if clamp x < 0 then roundHalfAway (clamp x * 32768)
  else roundHalfAway (clamp x * 32767)

/-- Inbound per-sample decode: 16-bit value over 32768 (App.tsx line 57). -/
def decodeSample (v : ℤ) : ℚ := (v : ℚ) / 32768

/-! ## Helper lemmas -/

theorem toInt16_eq_self (v : ℤ) (h1 : -32768 ≤ v) (h2 : v ≤ 32767) :
    toInt16 v = v := by
  unfold toInt16
  omega

theorem neg_one_le_clamp (x : ℚ) : -1 ≤ clamp x := le_max_left _ _

theorem clamp_le_one (x : ℚ) : clamp x ≤ 1 :=
  max_le (by norm_num) (min_le_left _ _)

theorem scaledSample_range (x : ℚ) :
    -32768 ≤ scaledSample x ∧ scaledSample x ≤ 32767 := by
  have h1 := neg_one_le_clamp x
  have h2 := clamp_le_one x
  by_cases hc : clamp x < 0
  · rw [scaledSample, if_pos hc, jsTrunc,
      if_pos (mul_neg_of_neg_of_pos hc (by norm_num))]
    constructor
    · have h := Int.ceil_le_ceil (show (-32768 : ℚ) ≤ clamp x * 32768 by linarith)
      have h0 : ⌈(-32768 : ℚ)⌉ = -32768 := by
        rw [show (-32768 : ℚ) = ((-32768 : ℤ) : ℚ) by norm_num, Int.ceil_intCast]
      omega
    · have h := Int.ceil_le_ceil (show clamp x * 32768 ≤ 0 by nlinarith)
      have h0 : ⌈(0 : ℚ)⌉ = 0 := by norm_num
      omega
  · push_neg at hc
    rw [scaledSample, if_neg (not_lt.mpr hc), jsTrunc,
      if_neg (not_lt.mpr (mul_nonneg hc (by norm_num)))]
    constructor
    · have h := Int.floor_le_floor (show (0 : ℚ) ≤ clamp x * 32767 from mul_nonneg hc (by norm_num))
      have h0 : ⌊(0 : ℚ)⌋ = 0 := by norm_num
      omega
    · have h := Int.floor_le_floor (show clamp x * 32767 ≤ 32767 by linarith)
      have h0 : ⌊(32767 : ℚ)⌋ = 32767 := by
        rw [show (32767 : ℚ) = ((32767 : ℤ) : ℚ) by norm_num, Int.floor_intCast]
      omega

theorem encodeSample_eq_scaled (x : ℚ) : encodeSample x = scaledSample x := by
  obtain ⟨h1, h2⟩ := scaledSample_range x
  rw [encodeSample, toInt16_eq_self _ h1 h2]

set_option maxRecDepth 4000 in
theorem bytesToInt16LE_of_int16 (v : ℤ) (h1 : -32768 ≤ v) (h2 : v ≤ 32767) :
    bytesToInt16LE (int16ToBytesLE v) = [v] := by
  simp only [int16ToBytesLE, bytesToInt16LE, leToInt16, toInt16]
  rw [List.cons.injEq]
  refine ⟨?_, rfl⟩
  omega

/-! ## Claim C5 -/

/-- C5: a frame processed with the mute flag set is dropped: nothing is
encoded and nothing reaches the transport, and the frame is not buffered —
over any capture sequence, the chunks sent are exactly the encodings of
the frames captured while unmuted, in order, so unmuting resumes with
fresh frames only and no dropped frame is ever replayed. -/
theorem c5_mute_drops_frames (frames : List (Bool × List ℚ)) :
    runCapture frames =
      (frames.filter (fun f => !f.1)).map
        (fun f => OutChunk.mk (btoa (encodeFrame f.2)) "audio/pcm;rate=16000") ∧
    (∀ input : List ℚ, onaudioprocess true input = none) := by
  refine ⟨?_, fun input => rfl⟩
  induction frames with
  | nil => rfl
  | cons f rest ih =>
    obtain ⟨m, inp⟩ := f
    cases m
    · simpa [runCapture, List.filterMap_cons, onaudioprocess] using ih
    · simpa [runCapture, List.filterMap_cons, onaudioprocess] using ih

/-! ## Claim C6 -/

/-- C6 (amended): the encoder clamps each sample to [-1, 1], scales
negative values by 32768 and non-negative ones by 32767, and truncates
toward zero (the `Int16Array` store) — not round-half-away-from-zero;
the scaled value always lies in [-32768, 32767], so the 16-bit store
never wraps, and the little-endian serialization is faithful. -/
theorem c6_encoder_truncates_no_wrap (x : ℚ) :
    -32768 ≤ scaledSample x ∧ scaledSample x ≤ 32767 ∧
    encodeSample x = scaledSample x ∧
    bytesToInt16LE (int16ToBytesLE (encodeSample x)) = [encodeSample x] := by
  obtain ⟨h1, h2⟩ := scaledSample_range x
  have he := encodeSample_eq_scaled x
  exact ⟨h1, h2, he, by rw [he]; exact bytesToInt16LE_of_int16 _ h1 h2⟩

/-- C6 counterexample: at the in-range sample 1/16384 the code stores 1
(truncation of 1.99993…), while round-half-away-from-zero scaling would
store 2 — the claimed rounding mode does not match the code. -/
theorem c6_counterexample :
    encodeSample (1/16384) = 1 ∧ specEncodeSample (1/16384) = 2 ∧
    encodeSample (1/16384) ≠ specEncodeSample (1/16384) := by
  norm_num [encodeSample, specEncodeSample, scaledSample, clamp, jsTrunc,
    toInt16, roundHalfAway]

/-! ## Claim C8 -/

/-- C8 (amended): the encode/decode round trip reproduces a sample in
[-1, 1] to within strictly less than two quantization steps (2/65536 =
1/16384), and within one step (1/32768) for non-positive samples; the
one-step bound claimed for all samples fails on the non-negative side
because encoding scales by 32767 while decoding divides by 32768. -/
theorem c8_roundtrip_quantization (s : ℚ) (h1 : -1 ≤ s) (h2 : s ≤ 1) :
    |s - decodeSample (encodeSample s)| < 1/16384 ∧
    (s ≤ 0 → |s - decodeSample (encodeSample s)| ≤ 1/32768) := by
  have hcl : clamp s = s := by
    rw [clamp, min_eq_right h2, max_eq_right h1]
  rw [encodeSample_eq_scaled, decodeSample]
  by_cases hs : s < 0
  · rw [scaledSample, hcl, if_pos hs, jsTrunc,
      if_pos (mul_neg_of_neg_of_pos hs (by norm_num))]
    have hc1 : (⌈s * 32768⌉ : ℚ) < s * 32768 + 1 := Int.ceil_lt_add_one _
    have hc2 : s * 32768 ≤ (⌈s * 32768⌉ : ℚ) := Int.le_ceil _
    rw [abs_of_nonpos (by linarith [hc2])]
    constructor
    · linarith
    · intro
      linarith
  · push_neg at hs
    rw [scaledSample, hcl, if_neg (not_lt.mpr hs), jsTrunc,
      if_neg (not_lt.mpr (mul_nonneg hs (by norm_num)))]
    have hf1 : (⌊s * 32767⌋ : ℚ) ≤ s * 32767 := Int.floor_le _
    have hf2 : s * 32767 - 1 < (⌊s * 32767⌋ : ℚ) := Int.sub_one_lt_floor _
    rw [abs_of_nonneg (by linarith [hf1])]
    constructor
    · linarith
    · intro hs0
      have hz : s = 0 := le_antisymm hs0 hs
      subst hz
      norm_num

/-- C8 counterexample: the in-range sample 2/3 encodes to 21844 and
decodes to 21844/32768, an absolute error of 1/24576, which exceeds the
claimed one-quantization-step bound of 1/32768. -/
theorem c8_counterexample :
    -1 ≤ (2/3 : ℚ) ∧ (2/3 : ℚ) ≤ 1 ∧
    ¬(|2/3 - decodeSample (encodeSample (2/3 : ℚ))| ≤ 1/32768) := by
  norm_num [encodeSample, scaledSample, clamp, jsTrunc, toInt16, decodeSample]
  rw [show |(1 : ℚ)/24576| = 1/24576 from abs_of_nonneg (by norm_num)]
  norm_num

/-- C8 witness: the amended bound applied at the concrete sample -1/2,
whose hypotheses -1 ≤ -1/2 ≤ 1 (and -1/2 ≤ 0) hold. -/
theorem c8_witness :
    ((-1 : ℚ) ≤ -1/2 ∧ (-1/2 : ℚ) ≤ 1) ∧
    (|(-1/2 : ℚ) - decodeSample (encodeSample (-1/2 : ℚ))| < 1/16384 ∧
      ((-1/2 : ℚ) ≤ 0 →
        |(-1/2 : ℚ) - decodeSample (encodeSample (-1/2 : ℚ))| ≤ 1/32768)) :=
  ⟨⟨by norm_num, by norm_num⟩,
    c8_roundtrip_quantization (-1/2) (by norm_num) (by norm_num)⟩

/-! ## Claim C9 -/

theorem sextets_div (q r k : Nat) (hk : 0 < k) (hr : r < k) : (q * k + r) / k = q := by
  rw [Nat.mul_comm, Nat.mul_add_div hk, Nat.div_eq_of_lt hr, Nat.add_zero]

theorem sextets_mod (q r k : Nat) (hr : r < k) : (q * k + r) % k = r := by
  rw [Nat.mul_comm, Nat.mul_add_mod, Nat.mod_eq_of_lt hr]

theorem b64idx_b64c : ∀ n, n < 64 → b64idx (b64c n) = n := by decide

theorem b64c_beq_pad : ∀ n, n < 64 → (b64c n == '=') = false := by decide

theorem stripEq_pad2 (c0 c1 : Char) (h : (c1 == '=') = false) :
    stripEq [c0, c1, '=', '='] = [c0, c1] := by
  simp [stripEq, List.dropWhile_cons, h]

theorem stripEq_pad1 (c0 c1 c2 : Char) (h : (c2 == '=') = false) :
    stripEq [c0, c1, c2, '='] = [c0, c1, c2] := by
  simp [stripEq, List.dropWhile_cons, h]

theorem stripEq_cons4 (c0 c1 c2 c3 : Char) (l : List Char)
    (h : (c3 == '=') = false) :
    stripEq (c0 :: c1 :: c2 :: c3 :: l) = c0 :: c1 :: c2 :: c3 :: stripEq l := by
  unfold stripEq
  have hrev : (c0 :: c1 :: c2 :: c3 :: l).reverse = l.reverse ++ [c3, c2, c1, c0] := by
    simp
  rw [hrev, List.dropWhile_append]
  by_cases he : (l.reverse.dropWhile (fun c => c == '=')).isEmpty = true
  · rw [if_pos he]
    rw [List.isEmpty_iff] at he
    simp [List.dropWhile_cons, h, he]
  · rw [if_neg he]
    simp

theorem atob_btoa (x : List Nat) : (∀ b ∈ x, b < 256) → atob (btoa x) = x := by
  induction x using btoa.induct with
  | case1 =>
    intro _
    rfl
  | case2 b0 =>
    intro h
    have hb0 : b0 < 256 := h b0 (by simp)
    have h1 : b0 / 4 < 64 := by omega
    have h2 : b0 % 4 * 16 < 64 := by omega
    simp only [btoa, atob]
    rw [stripEq_pad2 _ _ (b64c_beq_pad _ h2)]
    simp only [List.map_cons, List.map_nil, b64idx_b64c _ h1, b64idx_b64c _ h2,
      unsextets, List.cons.injEq]
    refine ⟨?_, trivial⟩
    rw [Nat.mul_div_cancel _ (by norm_num : (0:ℕ) < 16)]
    omega
  | case3 b0 b1 =>
    intro h
    have hb0 : b0 < 256 := h b0 (by simp)
    have hb1 : b1 < 256 := h b1 (by simp)
    have h1 : b0 / 4 < 64 := by omega
    have h2 : b0 % 4 * 16 + b1 / 16 < 64 := by omega
    have h3 : b1 % 16 * 4 < 64 := by omega
    simp only [btoa, atob]
    rw [stripEq_pad1 _ _ _ (b64c_beq_pad _ h3)]
    simp only [List.map_cons, List.map_nil, b64idx_b64c _ h1, b64idx_b64c _ h2,
      b64idx_b64c _ h3, unsextets, List.cons.injEq]
    refine ⟨?_, ?_, trivial⟩
    · rw [sextets_div _ _ _ (by norm_num) (by omega)]
      omega
    · rw [sextets_mod _ _ _ (by omega), Nat.mul_div_cancel _ (by norm_num : (0:ℕ) < 4)]
      omega
  | case4 b0 b1 b2 rest ih =>
    intro h
    have hb0 : b0 < 256 := h b0 (by simp)
    have hb1 : b1 < 256 := h b1 (by simp)
    have hb2 : b2 < 256 := h b2 (by simp)
    have hrest : ∀ b ∈ rest, b < 256 := fun b hb => h b (by simp [hb])
    have h1 : b0 / 4 < 64 := by omega
    have h2 : b0 % 4 * 16 + b1 / 16 < 64 := by omega
    have h3 : b1 % 16 * 4 + b2 / 64 < 64 := by omega
    have h4 : b2 % 64 < 64 := by omega
    have hih := ih hrest
    rw [atob] at hih
    simp only [btoa, atob]
    rw [stripEq_cons4 _ _ _ _ _ (b64c_beq_pad _ h4)]
    simp only [List.map_cons, b64idx_b64c _ h1, b64idx_b64c _ h2,
      b64idx_b64c _ h3, b64idx_b64c _ h4, unsextets, hih, List.cons.injEq]
    refine ⟨?_, ?_, ?_, trivial⟩
    · rw [sextets_div _ _ _ (by norm_num) (by omega)]
      omega
    · rw [sextets_mod _ _ _ (by omega), sextets_div _ _ _ (by norm_num) (by omega)]
      omega
    · rw [sextets_mod _ _ _ (by omega)]
      omega

/-- C9: the byte-to-text transport encoding and its inverse round-trip:
for every byte sequence (values below 256, as a `Uint8Array` holds),
`atob (btoa x) = x`; both are pure functions of their input. -/
theorem c9_base64_roundtrip (x : List Nat) (h : ∀ b ∈ x, b < 256) :
    atob (btoa x) = x :=
  atob_btoa x h

/-- C9 witness: the round trip applied to a concrete five-byte sequence
(all bytes below 256) and to the empty sequence. -/
theorem c9_witness :
    ((∀ b ∈ [77, 97, 110, 0, 255], b < 256) ∧
      atob (btoa [77, 97, 110, 0, 255]) = [77, 97, 110, 0, 255]) ∧
    atob (btoa ([] : List Nat)) = [] :=
  ⟨⟨by decide, c9_base64_roundtrip [77, 97, 110, 0, 255] (by decide)⟩,
    c9_base64_roundtrip [] (by decide)⟩

/-! ## Claims C1 and C2: the inbound playback scheduler -/

theorem AudioBuffer.duration_nonneg (b : AudioBuffer) : 0 ≤ b.duration :=
  div_nonneg (Nat.cast_nonneg _) (Nat.cast_nonneg _)

/-- Scheduling one decodable chunk: start time is `max(cursor, now)`, the
cursor advances by the buffer duration. -/
theorem onmessage_schedule (f : Source → Bool) (now : ℚ) (msg : ServerMsg)
    (bytes : List Nat) (buf : AudioBuffer) (st : AppState) (cid : Nat)
    (hb : msg.audioBytes = some bytes) (hni : msg.interrupted = false)
    (hc : st.ctxOut = some cid) (hd : decodeAudioData bytes 24000 1 = .ok buf) :
    (onmessage f now msg st).state.sources =
      st.sources ++ [⟨max st.nextStartTime now, buf.duration⟩] ∧
    (onmessage f now msg st).state.nextStartTime =
      max st.nextStartTime now + buf.duration := by
  rcases hti : msg.inputTranscription with _ | t <;>
    rcases hto : msg.outputTranscription with _ | t2 <;>
      simp [onmessage, hb, hni, hc, hd, hti, hto]

theorem sched_append (l : List Source) (nst now d : ℚ)
    (h1 : List.Chain' (fun a b => a.start + a.duration ≤ b.start) l)
    (h2 : ∀ s ∈ l, s.start + s.duration ≤ nst ∧ 0 ≤ s.duration)
    (hd : 0 ≤ d) :
    List.Chain' (fun a b => a.start + a.duration ≤ b.start)
      (l ++ [⟨max nst now, d⟩]) ∧
    ∀ s ∈ l ++ [(⟨max nst now, d⟩ : Source)],
      s.start + s.duration ≤ max nst now + d ∧ 0 ≤ s.duration := by
  constructor
  · rw [List.chain'_append]
    refine ⟨h1, List.chain'_singleton _, ?_⟩
    intro x hx y hy
    simp only [List.head?_cons, Option.mem_def, Option.some.injEq] at hy
    subst hy
    have hx2 := h2 x (List.mem_of_mem_getLast? hx)
    have := le_max_left nst now
    simp only []
    linarith [hx2.1]
  · intro s hs
    rcases List.mem_append.mp hs with h | h
    · have := h2 s h
      have hm := le_max_left nst now
      exact ⟨by linarith [this.1], this.2⟩
    · simp only [List.mem_singleton] at h
      subst h
      exact ⟨le_refl _, hd⟩

/-- A non-interrupted message preserves the scheduling invariant. -/
theorem onmessage_preserves_sched (f : Source → Bool) (now : ℚ) (msg : ServerMsg)
    (st : AppState) (hni : msg.interrupted = false)
    (h1 : WellScheduled st.sources) (h2 : CursorDominates st) :
    WellScheduled (onmessage f now msg st).state.sources ∧
    CursorDominates (onmessage f now msg st).state := by
  rcases hb : msg.audioBytes with _ | bytes
  · have hfields : (onmessage f now msg st).state.sources = st.sources ∧
        (onmessage f now msg st).state.nextStartTime = st.nextStartTime := by
      rcases hti : msg.inputTranscription with _ | t <;>
        rcases hto : msg.outputTranscription with _ | t2 <;>
          simp [onmessage, hb, hni, hti, hto]
    refine ⟨?_, ?_⟩
    · show List.Chain' _ _
      rw [hfields.1]
      exact h1
    · intro s hs
      rw [hfields.1] at hs
      rw [hfields.2]
      exact h2 s hs
  · rcases hc : st.ctxOut with _ | cid
    · have hfields : (onmessage f now msg st).state.sources = st.sources ∧
          (onmessage f now msg st).state.nextStartTime = st.nextStartTime := by
        rcases hti : msg.inputTranscription with _ | t <;>
          rcases hto : msg.outputTranscription with _ | t2 <;>
            simp [onmessage, hb, hc, hni, hti, hto]
      refine ⟨?_, ?_⟩
      · show List.Chain' _ _
        rw [hfields.1]
        exact h1
      · intro s hs
        rw [hfields.1] at hs
        rw [hfields.2]
        exact h2 s hs
    · rcases hd : decodeAudioData bytes 24000 1 with e | buf
      · have hfields : (onmessage f now msg st).state.sources = st.sources ∧
            (onmessage f now msg st).state.nextStartTime = max st.nextStartTime now := by
          simp [onmessage, hb, hc, hd]
        refine ⟨?_, ?_⟩
        · show List.Chain' _ _
          rw [hfields.1]
          exact h1
        · intro s hs
          rw [hfields.1] at hs
          rw [hfields.2]
          have := h2 s hs
          have hm := le_max_left st.nextStartTime now
          exact ⟨by linarith [this.1], this.2⟩
      · have hfields := onmessage_schedule f now msg bytes buf st cid hb hni hc hd
        have hsched := sched_append st.sources st.nextStartTime now buf.duration
          h1 h2 buf.duration_nonneg
        refine ⟨?_, ?_⟩
        · show List.Chain' _ _
          rw [hfields.1]
          exact hsched.1
        · intro s hs
          rw [hfields.1] at hs
          rw [hfields.2]
          exact hsched.2 s hs

theorem runMsgs_preserves_sched (f : Source → Bool) (msgs : List (ℚ × ServerMsg))
    (st : AppState) (hni : ∀ p ∈ msgs, p.2.interrupted = false)
    (h1 : WellScheduled st.sources) (h2 : CursorDominates st) :
    WellScheduled (runMsgs f msgs st).sources ∧
    CursorDominates (runMsgs f msgs st) := by
  induction msgs generalizing st with
  | nil => exact ⟨h1, h2⟩
  | cons p rest ih =>
    have hp := hni p (by simp)
    have hstep := onmessage_preserves_sched f p.1 p.2 st hp h1 h2
    have hrest : ∀ q ∈ rest, q.2.interrupted = false := fun q hq => hni q (by simp [hq])
    have := ih (onmessage f p.1 p.2 st).state hrest hstep.1 hstep.2
    simpa [runMsgs, List.foldl_cons] using this

theorem chain_mono_of_sched (l : List Source)
    (h1 : List.Chain' (fun a b => a.start + a.duration ≤ b.start) l)
    (h2 : ∀ s ∈ l, 0 ≤ s.duration) :
    List.Chain' (fun a b => a.start ≤ b.start) l := by
  induction l with
  | nil => exact List.chain'_nil
  | cons a t ih =>
    rw [List.chain'_cons'] at h1 ⊢
    refine ⟨?_, ih h1.2 (fun s hs => h2 s (by simp [hs]))⟩
    intro y hy
    have hr := h1.1 y hy
    have ha := h2 a (by simp)
    linarith

/-- C2: a decodable audio chunk is scheduled at `max(cursor, now)`, the
cursor advances by exactly the chunk's duration and the handle joins the
live set; consequently, over any message sequence with no interruption,
the scheduled start times are non-decreasing and each chunk starts no
earlier than the previous chunk's start plus its duration. -/
theorem c2_scheduler_monotone :
    (∀ (f : Source → Bool) (now : ℚ) (msg : ServerMsg) (bytes : List Nat)
        (buf : AudioBuffer) (st : AppState) (cid : Nat),
        msg.audioBytes = some bytes → msg.interrupted = false →
        st.ctxOut = some cid → decodeAudioData bytes 24000 1 = .ok buf →
        (onmessage f now msg st).state.sources =
          st.sources ++ [⟨max st.nextStartTime now, buf.duration⟩] ∧
        (onmessage f now msg st).state.nextStartTime =
          max st.nextStartTime now + buf.duration) ∧
    (∀ (f : Source → Bool) (msgs : List (ℚ × ServerMsg)) (st : AppState),
        (∀ p ∈ msgs, p.2.interrupted = false) →
        WellScheduled st.sources → CursorDominates st →
        WellScheduled (runMsgs f msgs st).sources ∧
        List.Chain' (fun a b => a.start ≤ b.start) (runMsgs f msgs st).sources) := by
  constructor
  · intro f now msg bytes buf st cid hb hni hc hd
    exact onmessage_schedule f now msg bytes buf st cid hb hni hc hd
  · intro f msgs st hni h1 h2
    have hrun := runMsgs_preserves_sched f msgs st hni h1 h2
    exact ⟨hrun.1, chain_mono_of_sched _ hrun.1 (fun s hs => (hrun.2 s hs).2)⟩

/-- C1 (amended): on a message with the interrupted flag whose handling
does not abort (its audio payload, if any, decodes), the handler empties
the live-handle set, resets the cursor to 0, has invoked stop on every
handle that was live, is unaffected by which individual stop attempts
fail, and any decodable chunk arriving next is scheduled exactly at the
device clock's current time rather than at the pre-interruption cursor. -/
theorem c1_interruption_reset (f : Source → Bool) (now : ℚ) (msg : ServerMsg)
    (st : AppState) (hint : msg.interrupted = true)
    (hok : (onmessage f now msg st).aborted = false) :
    (onmessage f now msg st).state.sources = [] ∧
    (onmessage f now msg st).state.nextStartTime = 0 ∧
    (∀ s ∈ st.sources, s ∈ (onmessage f now msg st).stopped) ∧
    (∀ f' : Source → Bool,
      (onmessage f' now msg st).state = (onmessage f now msg st).state ∧
      (onmessage f' now msg st).stopped = (onmessage f now msg st).stopped) ∧
    (∀ (now2 : ℚ) (bytes : List Nat) (buf : AudioBuffer) (cid : Nat),
      0 ≤ now2 → st.ctxOut = some cid → decodeAudioData bytes 24000 1 = .ok buf →
      (onmessage f now2 ⟨some bytes, false, none, none⟩
          (onmessage f now msg st).state).state.sources = [⟨now2, buf.duration⟩]) := by
  have key : (onmessage f now msg st).state.sources = [] ∧
      (onmessage f now msg st).state.nextStartTime = 0 ∧
      (∀ s ∈ st.sources, s ∈ (onmessage f now msg st).stopped) ∧
      (onmessage f now msg st).state.ctxOut = st.ctxOut ∧
      (∀ f' : Source → Bool,
        (onmessage f' now msg st).state = (onmessage f now msg st).state ∧
        (onmessage f' now msg st).stopped = (onmessage f now msg st).stopped) := by
    rcases hb : msg.audioBytes with _ | bytes
    · rcases hti : msg.inputTranscription with _ | t <;>
        rcases hto : msg.outputTranscription with _ | t2 <;>
          simp [onmessage, hb, hint, hti, hto]
    · rcases hc : st.ctxOut with _ | cid
      · rcases hti : msg.inputTranscription with _ | t <;>
          rcases hto : msg.outputTranscription with _ | t2 <;>
            simp [onmessage, hb, hc, hint, hti, hto]
      · rcases hd : decodeAudioData bytes 24000 1 with e | buf
        · simp [onmessage, hb, hc, hd] at hok
        · rcases hti : msg.inputTranscription with _ | t <;>
            rcases hto : msg.outputTranscription with _ | t2 <;>
              simp [onmessage, hb, hc, hd, hint, hti, hto] <;>
                exact fun s hs => Or.inl hs
  refine ⟨key.1, key.2.1, key.2.2.1, key.2.2.2.2, ?_⟩
  intro now2 bytes buf cid h0 hcid hd
  have hctx : (onmessage f now msg st).state.ctxOut = some cid := by
    rw [key.2.2.2.1]
    exact hcid
  have hsch := onmessage_schedule f now2 ⟨some bytes, false, none, none⟩ bytes buf
    (onmessage f now msg st).state cid rfl rfl hctx hd
  rw [hsch.1, key.1, key.2.1, List.nil_append, max_eq_right h0]

/-! ## Claims C3, C4 and C10: session lifecycle -/

theorem stopCloseCtxOut_sources (o : TeardownFaults) (st : AppState) (tr : List Step) :
    (stopCloseCtxOut o st tr).1.sources = st.sources ∧
    ∃ e, (stopCloseCtxOut o st tr).2 = tr ++ e := by
  obtain ⟨ls, sm, ci, co, fi, nst, src, mm, ca, ts, vm, dd, cs, cl, ss, cc⟩ := st
  rcases co with _ | co
  · exact ⟨by simp [stopCloseCtxOut, stopFinalize],
      ⟨[Step.resetState], by simp [stopCloseCtxOut, stopFinalize]⟩⟩
  · by_cases hth : o.ctxOutCloseThrows
    · exact ⟨by simp [stopCloseCtxOut, hth],
        ⟨[Step.closeCtxOut co], by simp [stopCloseCtxOut, hth]⟩⟩
    · exact ⟨by simp [stopCloseCtxOut, hth, stopFinalize],
        ⟨[Step.closeCtxOut co, Step.resetState],
          by simp [stopCloseCtxOut, hth, stopFinalize]⟩⟩

theorem stopCloseCtxIn_sources (o : TeardownFaults) (st : AppState) (tr : List Step) :
    (stopCloseCtxIn o st tr).1.sources = st.sources ∧
    ∃ e, (stopCloseCtxIn o st tr).2 = tr ++ e := by
  obtain ⟨ls, sm, ci, co, fi, nst, src, mm, ca, ts, vm, dd, cs, cl, ss, cc⟩ := st
  rcases ci with _ | ci
  · simpa [stopCloseCtxIn] using stopCloseCtxOut_sources o ⟨ls, sm, none, co, fi, nst, src, mm, ca, ts, vm, dd, cs, cl, ss, cc⟩ tr
  · by_cases hth : o.ctxInCloseThrows
    · exact ⟨by simp [stopCloseCtxIn, hth],
        ⟨[Step.closeCtxIn ci], by simp [stopCloseCtxIn, hth]⟩⟩
    · obtain ⟨hs, e, he⟩ := stopCloseCtxOut_sources o
        ⟨ls, sm, some ci, co, fi, nst, src, mm, ca, ts, vm, dd, cs, cl, ss, ci :: cc⟩
        (tr ++ [Step.closeCtxIn ci])
      refine ⟨?_, ⟨[Step.closeCtxIn ci] ++ e, ?_⟩⟩
      · simp only [stopCloseCtxIn]
        rw [if_neg hth]
        exact hs
      · simp only [stopCloseCtxIn]
        rw [if_neg hth, he, List.append_assoc]

theorem stopTracksStep_sources (o : TeardownFaults) (st : AppState) (tr : List Step) :
    (stopTracksStep o st tr).1.sources = st.sources ∧
    ∃ e, (stopTracksStep o st tr).2 = tr ++ e := by
  obtain ⟨ls, sm, ci, co, fi, nst, src, mm, ca, ts, vm, dd, cs, cl, ss, cc⟩ := st
  rcases sm with _ | mid
  · simpa [stopTracksStep] using stopCloseCtxIn_sources o ⟨ls, none, ci, co, fi, nst, src, mm, ca, ts, vm, dd, cs, cl, ss, cc⟩ tr
  · obtain ⟨hs, e, he⟩ := stopCloseCtxIn_sources o
      ⟨ls, some mid, ci, co, fi, nst, src, mm, ca, ts, vm, dd, cs, cl, mid :: ss, cc⟩
      (tr ++ [Step.stopTracks mid])
    refine ⟨?_, ⟨[Step.stopTracks mid] ++ e, ?_⟩⟩
    · simp only [stopTracksStep]
      exact hs
    · simp only [stopTracksStep]
      rw [he, List.append_assoc]

theorem stopSourcesStep_spec (o : TeardownFaults) (st : AppState) (tr : List Step) :
    (stopSourcesStep o st tr).1.sources = [] ∧
    ∀ s ∈ st.sources, Step.stopSource s ∈ (stopSourcesStep o st tr).2 := by
  obtain ⟨hs, e, he⟩ := stopTracksStep_sources o { st with sources := [] }
    (tr ++ st.sources.flatMap (fun s =>
        Step.stopSource s ::
          (if o.sourceStopFails s then [Step.sourceStopFailed s] else []))
      ++ [.clearSources])
  constructor
  · simp only [stopSourcesStep]
    rw [hs]
  · intro s hsmem
    have hmem : Step.stopSource s ∈ st.sources.flatMap (fun s =>
        Step.stopSource s ::
          (if o.sourceStopFails s then [Step.sourceStopFailed s] else [])) :=
      List.mem_flatMap.mpr ⟨s, hsmem, by simp⟩
    simp only [stopSourcesStep]
    rw [he]
    simp only [List.mem_append]
    tauto

theorem stopIntervalStep_spec (o : TeardownFaults) (st : AppState) (tr : List Step) :
    (stopIntervalStep o st tr).1.sources = [] ∧
    ∀ s ∈ st.sources, Step.stopSource s ∈ (stopIntervalStep o st tr).2 := by
  obtain ⟨ls, sm, ci, co, fi, nst, src, mm, ca, ts, vm, dd, cs, cl, ss, cc⟩ := st
  rcases fi with _ | i
  · simpa [stopIntervalStep] using stopSourcesStep_spec o ⟨ls, sm, ci, co, none, nst, src, mm, ca, ts, vm, dd, cs, cl, ss, cc⟩ tr
  · have h := stopSourcesStep_spec o
      ⟨ls, sm, ci, co, some i, nst, src, mm, ca, ts, vm, dd, cs, i :: cl, ss, cc⟩
      (tr ++ [Step.cancelInterval i])
    refine ⟨?_, ?_⟩
    · simp only [stopIntervalStep]
      exact h.1
    · intro s hsmem
      simp only [stopIntervalStep]
      exact h.2 s hsmem

theorem stopVoiceMode_noThrows (o : TeardownFaults) (st : AppState) (h : NoThrows o) :
    (stopVoiceMode o st).1.liveSession = none ∧
    (stopVoiceMode o st).1.stream = none ∧
    (stopVoiceMode o st).1.ctxIn = none ∧
    (stopVoiceMode o st).1.ctxOut = none ∧
    (stopVoiceMode o st).1.sources = [] ∧
    (stopVoiceMode o st).1.voiceModeActive = false ∧
    (stopVoiceMode o st).1.micMuted = false ∧
    (stopVoiceMode o st).1.cameraActive = false ∧
    (stopVoiceMode o st).1.transcription = "" ∧
    Step.resetState ∈ (stopVoiceMode o st).2 := by
  obtain ⟨h1, h2, h3⟩ := h
  rcases hls : st.liveSession with _ | sid <;>
    rcases hfi : st.frameInterval with _ | i <;>
      rcases hstr : st.stream with _ | mid <;>
        rcases hci : st.ctxIn with _ | ci <;>
          rcases hco : st.ctxOut with _ | co <;>
            simp [stopVoiceMode, stopIntervalStep, stopSourcesStep, stopTracksStep,
              stopCloseCtxIn, stopCloseCtxOut, stopFinalize, h1, h2, h3,
              hls, hfi, hstr, hci, hco]

/-- C4 (amended): force-stop is modelled as a total function (the single
enclosing catch swallows any step failure, so nothing propagates); the
per-handle stops are individually best-effort — every live handle is
stop-attempted and the set cleared whenever that step is reached,
whatever the individual stop outcomes — and when no step throws the full
teardown runs to completion; but the steps are NOT individually
best-effort: a throwing transport close ends the teardown with every
remaining step skipped and the state untouched. -/
theorem c4_teardown_best_effort (o : TeardownFaults) (st : AppState) :
    ((st.liveSession = none ∨ o.sessionCloseThrows = false) →
      (∀ s ∈ st.sources, Step.stopSource s ∈ (stopVoiceMode o st).2) ∧
      (stopVoiceMode o st).1.sources = []) ∧
    (NoThrows o →
      (stopVoiceMode o st).1.liveSession = none ∧
      (stopVoiceMode o st).1.stream = none ∧
      (stopVoiceMode o st).1.ctxIn = none ∧
      (stopVoiceMode o st).1.ctxOut = none ∧
      (stopVoiceMode o st).1.sources = [] ∧
      (stopVoiceMode o st).1.voiceModeActive = false ∧
      Step.resetState ∈ (stopVoiceMode o st).2) ∧
    (o.sessionCloseThrows = true → ∀ sid, st.liveSession = some sid →
      stopVoiceMode o st = (st, [Step.closeSession sid])) := by
  refine ⟨?_, ?_, ?_⟩
  · intro hcond
    rcases hls : st.liveSession with _ | sid
    · have h := stopIntervalStep_spec o st []
      have hred : stopVoiceMode o st = stopIntervalStep o st [] := by
        simp [stopVoiceMode, hls]
      rw [hred]
      exact ⟨h.2, h.1⟩
    · have hfalse : o.sessionCloseThrows = false := by
        rcases hcond with h | h
        · simp [hls] at h
        · exact h
      have h := stopIntervalStep_spec o
        { st with closedSessions := sid :: st.closedSessions } [Step.closeSession sid]
      have hred : stopVoiceMode o st = stopIntervalStep o
          { st with closedSessions := sid :: st.closedSessions }
          [Step.closeSession sid] := by
        simp [stopVoiceMode, hls, hfalse]
      rw [hred]
      exact ⟨h.2, h.1⟩
  · intro h
    have := stopVoiceMode_noThrows o st h
    exact ⟨this.1, this.2.1, this.2.2.1, this.2.2.2.1, this.2.2.2.2.1,
      this.2.2.2.2.2.1, this.2.2.2.2.2.2.2.2.2⟩
  · intro hthrow sid hls
    simp [stopVoiceMode, hls, hthrow]

/-- C10 (amended): provided no teardown step throws — in particular on the
redundant-call path, where every ref is already null and no fallible call
is made — force-stop resets the mute flag, the camera flag and the
transcript snapshot to their defaults, from any prior state. -/
theorem c10_flags_reset_amended (o : TeardownFaults) (st : AppState) (h : NoThrows o) :
    (stopVoiceMode o st).1.micMuted = false ∧
    (stopVoiceMode o st).1.cameraActive = false ∧
    (stopVoiceMode o st).1.transcription = "" := by
  have hs := stopVoiceMode_noThrows o st h
  exact ⟨hs.2.2.2.2.2.2.1, hs.2.2.2.2.2.2.2.1, hs.2.2.2.2.2.2.2.2.1⟩

/-- C4 counterexample: with a live session, a pending frame interval, a
capture stream, both audio contexts and one live playback handle, a
throwing transport close ends force-stop at once — the trace holds only
the close call, and the returned state still has the uncancelled
interval, the unstopped handle set and the unreleased stream and
contexts: the remaining teardown steps did not execute. -/
theorem c4_counterexample :
    let o : TeardownFaults := ⟨true, false, false, fun _ => false⟩
    let st : AppState := { initialState with
      liveSession := some 0, frameInterval := some 5, stream := some 10,
      ctxIn := some 20, ctxOut := some 30, sources := [⟨0, 1⟩], micMuted := true }
    stopVoiceMode o st = (st, [Step.closeSession 0]) ∧
    st.frameInterval = some 5 ∧ st.sources = [⟨0, 1⟩] ∧ st.stream = some 10 ∧
    st.ctxIn = some 20 ∧ st.ctxOut = some 30 := by
  refine ⟨by norm_num [stopVoiceMode, initialState], rfl, rfl, rfl, rfl, rfl⟩

/-- C4 witness: the amended theorem applied at a fault-free run over a
fully populated state (conjuncts one and two), and at a run whose
transport close throws (conjunct three). -/
theorem c4_witness :
    let o0 : TeardownFaults := ⟨false, false, false, fun _ => false⟩
    let o1 : TeardownFaults := ⟨true, false, false, fun _ => false⟩
    let st0 : AppState := { initialState with
      liveSession := some 0, frameInterval := some 5, stream := some 10,
      ctxIn := some 20, ctxOut := some 30, sources := [⟨0, 1⟩] }
    ((o0.sessionCloseThrows = false ∧ NoThrows o0) ∧
      ((∀ s ∈ st0.sources, Step.stopSource s ∈ (stopVoiceMode o0 st0).2) ∧
        (stopVoiceMode o0 st0).1.sources = []) ∧
      ((stopVoiceMode o0 st0).1.liveSession = none ∧
        (stopVoiceMode o0 st0).1.stream = none ∧
        (stopVoiceMode o0 st0).1.ctxIn = none ∧
        (stopVoiceMode o0 st0).1.ctxOut = none ∧
        (stopVoiceMode o0 st0).1.sources = [] ∧
        (stopVoiceMode o0 st0).1.voiceModeActive = false ∧
        Step.resetState ∈ (stopVoiceMode o0 st0).2)) ∧
    (o1.sessionCloseThrows = true ∧ st0.liveSession = some 0 ∧
      stopVoiceMode o1 st0 = (st0, [Step.closeSession 0])) :=
  ⟨⟨⟨rfl, ⟨rfl, rfl, rfl⟩⟩,
      (c4_teardown_best_effort _ _).1 (Or.inr rfl),
      (c4_teardown_best_effort _ _).2.1 ⟨rfl, rfl, rfl⟩⟩,
    ⟨rfl, rfl, (c4_teardown_best_effort _ _).2.2 rfl 0 rfl⟩⟩

/-- C10 counterexample: when the transport close throws, force-stop
returns with the mute flag, camera flag and transcript untouched — the
claimed unconditional reset to defaults does not happen. -/
theorem c10_counterexample :
    let o : TeardownFaults := ⟨true, false, false, fun _ => false⟩
    let st : AppState := { initialState with
      liveSession := some 0, micMuted := true, cameraActive := true,
      transcription := "hi" }
    (stopVoiceMode o st).1.micMuted = true ∧
    (stopVoiceMode o st).1.cameraActive = true ∧
    (stopVoiceMode o st).1.transcription = "hi" := by
  norm_num [stopVoiceMode, initialState]

/-- C10 witness: the amended reset applied at a fault-free run over a
state with the mute flag and camera on and a non-empty transcript. -/
theorem c10_witness :
    let o0 : TeardownFaults := ⟨false, false, false, fun _ => false⟩
    let st0 : AppState := { initialState with
      liveSession := some 0, micMuted := true, cameraActive := true,
      transcription := "x" }
    NoThrows o0 ∧
    ((stopVoiceMode o0 st0).1.micMuted = false ∧
      (stopVoiceMode o0 st0).1.cameraActive = false ∧
      (stopVoiceMode o0 st0).1.transcription = "") :=
  ⟨⟨rfl, rfl, rfl⟩, c10_flags_reset_amended _ _ ⟨rfl, rfl, rfl⟩⟩

/-- C3: starting voice mode while session 0's resources are live acquires
fresh resources and overwrites the refs, leaving the old transport session
unclosed, the old capture stream unstopped and the old audio contexts
unclosed — `startVoiceMode` performs no force-stop of the existing
session, so the old microphone stream stays open alongside the new one. -/
theorem c3_start_leaks_previous_session :
    let old : AppState := { initialState with
      liveSession := some 0, stream := some 10, ctxIn := some 20,
      ctxOut := some 30, voiceModeActive := true }
    let st' := startVoiceMode true ⟨21, 31, 11, 1⟩ old
    st'.liveSession = some 1 ∧ st'.stream = some 11 ∧
    st'.ctxIn = some 21 ∧ st'.ctxOut = some 31 ∧
    st'.closedSessions = [] ∧ st'.stoppedStreams = [] ∧ st'.closedCtxs = [] := by
  norm_num [startVoiceMode, initialState]

/-! ## Claim C7 -/

theorem bytesToInt16LE_length : ∀ l : List Nat, (bytesToInt16LE l).length = l.length / 2
  | [] => by simp [bytesToInt16LE]
  | [_] => by simp [bytesToInt16LE]
  | _ :: _ :: rest => by
    simp only [bytesToInt16LE, List.length_cons, bytesToInt16LE_length rest]
    omega

/-- C7 (amended): a byte sequence of odd length makes the decoder fail
with the typed-array range error — not with `MalformedAudioError`, which
the code never produces; a mono chunk of even, non-zero length decodes to
the little-endian 16-bit samples each divided by 32768 with the expected
frame count; and an even length that is not a multiple of 2 × channels
does not fail at all for two channels — the excess 16-bit value is
silently dropped. -/
theorem c7_decode_errors :
    (∀ (data : List Nat) (sr ch : Nat), data.length % 2 = 1 →
      decodeAudioData data sr ch = .error .rangeError) ∧
    (∀ (data : List Nat) (sr : Nat), data.length % 2 = 0 → data ≠ [] →
      8000 ≤ sr → sr ≤ 96000 →
      decodeAudioData data sr 1 = .ok
        { numChannels := 1
          length := data.length / 2
          sampleRate := sr
          channelData := [(List.range (data.length / 2)).map
            (fun i => ((bytesToInt16LE data).getD i 0 : ℚ) / 32768)] }) ∧
    (decodeAudioData [1, 0, 2, 0, 3, 0] 24000 2 =
      .ok { numChannels := 2, length := 1, sampleRate := 24000,
            channelData := [[1/32768], [2/32768]] }) := by
  refine ⟨?_, ?_, ?_⟩
  · intro data sr ch h
    have hne : data.length % 2 ≠ 0 := by omega
    simp [decodeAudioData, hne]
  · intro data sr h0 hne h1 h2
    have hlen0 : data.length ≠ 0 := fun hz => hne (List.length_eq_zero.mp hz)
    have hlen : 2 ≤ data.length := by omega
    simp only [decodeAudioData, bytesToInt16LE_length, Nat.div_one]
    rw [if_neg (by omega), if_neg (by omega)]
    have hr1 : List.range 1 = [0] := by decide
    rw [hr1]
    simp
  · norm_num [decodeAudioData, bytesToInt16LE, leToInt16, toInt16, List.range_succ]

/-- C7 counterexample: three bytes (odd length, one channel) make the
decoder fail with the range error thrown by the `Int16Array` view
constructor, which is not the `MalformedAudioError` the claim names. -/
theorem c7_counterexample :
    decodeAudioData [0, 0, 0] 24000 1 = .error .rangeError ∧
    JsErr.rangeError ≠ JsErr.malformedAudioError :=
  ⟨by norm_num [decodeAudioData], by decide⟩

/-- C7 witness: the amended behaviour applied at a three-byte sequence
(odd length) and at a two-byte mono chunk. -/
theorem c7_witness :
    (([0, 0, 0] : List Nat).length % 2 = 1 ∧
      decodeAudioData [0, 0, 0] 24000 1 = .error .rangeError) ∧
    ((([0, 0] : List Nat).length % 2 = 0 ∧ ([0, 0] : List Nat) ≠ [] ∧
        8000 ≤ 24000 ∧ 24000 ≤ 96000) ∧
      decodeAudioData [0, 0] 24000 1 = .ok
        { numChannels := 1
          length := ([0, 0] : List Nat).length / 2
          sampleRate := 24000
          channelData := [(List.range (([0, 0] : List Nat).length / 2)).map
            (fun i => ((bytesToInt16LE [0, 0]).getD i 0 : ℚ) / 32768)] }) :=
  ⟨⟨by decide, c7_decode_errors.1 [0, 0, 0] 24000 1 (by decide)⟩,
    ⟨⟨by decide, by decide, by decide, by decide⟩,
      c7_decode_errors.2.1 [0, 0] 24000 (by decide) (by decide) (by decide) (by decide)⟩⟩

/-! ## Concrete scheduler runs for C1 and C2 -/

/-- C1 counterexample: a message carrying the interrupted flag together
with a malformed (odd-length) audio payload rejects the async handler at
the decode step, before the interruption branch: the live handle survives,
the cursor keeps its bumped value 7 instead of resetting to 0, and no
stop is invoked — the claim's unconditional reset does not hold. -/
theorem c1_counterexample :
    let st : AppState := { initialState with
      ctxOut := some 0, nextStartTime := 5, sources := [⟨0, 5⟩] }
    let r := onmessage (fun _ => false) 7 ⟨some [0, 0, 0], true, none, none⟩ st
    r.state.sources = [⟨0, 5⟩] ∧ r.state.nextStartTime = 7 ∧
    r.stopped = [] ∧ r.aborted = true := by
  norm_num [onmessage, decodeAudioData, initialState, max_def]

/-- C1 witness: the amended reset applied to an interrupted message with
no audio payload, over a state with one live handle and cursor 1. -/
theorem c1_witness :
    let f0 : Source → Bool := fun _ => false
    let msg0 : ServerMsg := ⟨none, true, none, none⟩
    let st0 : AppState := { initialState with
      ctxOut := some 3, nextStartTime := 1, sources := [⟨0, 1⟩] }
    (msg0.interrupted = true ∧ (onmessage f0 2 msg0 st0).aborted = false) ∧
    ((onmessage f0 2 msg0 st0).state.sources = [] ∧
      (onmessage f0 2 msg0 st0).state.nextStartTime = 0 ∧
      (∀ s ∈ st0.sources, s ∈ (onmessage f0 2 msg0 st0).stopped) ∧
      (∀ f' : Source → Bool,
        (onmessage f' 2 msg0 st0).state = (onmessage f0 2 msg0 st0).state ∧
        (onmessage f' 2 msg0 st0).stopped = (onmessage f0 2 msg0 st0).stopped) ∧
      (∀ (now2 : ℚ) (bytes : List Nat) (buf : AudioBuffer) (cid : Nat),
        0 ≤ now2 → st0.ctxOut = some cid → decodeAudioData bytes 24000 1 = .ok buf →
        (onmessage f0 now2 ⟨some bytes, false, none, none⟩
            (onmessage f0 2 msg0 st0).state).state.sources = [⟨now2, buf.duration⟩])) :=
  ⟨⟨rfl, by simp [onmessage]⟩,
    c1_interruption_reset (fun _ => false) 2 ⟨none, true, none, none⟩
      { initialState with ctxOut := some 3, nextStartTime := 1, sources := [⟨0, 1⟩] }
      rfl (by simp [onmessage])⟩

/-- C2 witness: the monotone-scheduling conjuncts applied to a concrete
two-chunk run with no interruption (and the one-step equations at a
decodable two-byte chunk). -/
theorem c2_witness :
    let f0 : Source → Bool := fun _ => false
    let m : ServerMsg := ⟨some [0, 0], false, none, none⟩
    let msgs : List (ℚ × ServerMsg) := [(0, m), (1, m)]
    let st0 : AppState := { initialState with ctxOut := some 0 }
    ((m.audioBytes = some [0, 0] ∧ m.interrupted = false ∧ st0.ctxOut = some 0 ∧
        decodeAudioData [0, 0] 24000 1 = .ok ⟨1, 1, 24000, [[0]]⟩) ∧
      ((onmessage f0 5 m st0).state.sources =
          st0.sources ++ [⟨max st0.nextStartTime 5,
            AudioBuffer.duration ⟨1, 1, 24000, [[0]]⟩⟩] ∧
        (onmessage f0 5 m st0).state.nextStartTime =
          max st0.nextStartTime 5 + AudioBuffer.duration ⟨1, 1, 24000, [[0]]⟩)) ∧
    ((∀ p ∈ msgs, p.2.interrupted = false) ∧
      WellScheduled st0.sources ∧ CursorDominates st0) ∧
    (WellScheduled (runMsgs f0 msgs st0).sources ∧
      List.Chain' (fun a b => a.start ≤ b.start) (runMsgs f0 msgs st0).sources) :=
  ⟨⟨⟨rfl, rfl, rfl,
      by norm_num [decodeAudioData, bytesToInt16LE, leToInt16, toInt16, List.range_succ]⟩,
     c2_scheduler_monotone.1 _ 5 _ [0, 0] ⟨1, 1, 24000, [[0]]⟩ _ 0 rfl rfl rfl
       (by norm_num [decodeAudioData, bytesToInt16LE, leToInt16, toInt16, List.range_succ])⟩,
   ⟨by simp, by simp [WellScheduled, initialState], by simp [CursorDominates, initialState]⟩,
   c2_scheduler_monotone.2 _ _ _ (by simp)
     (by simp [WellScheduled, initialState]) (by simp [CursorDominates, initialState])⟩

end MuhaVoice
